import Mathlib

/-!
# Verification of the `taxi` timesheet parser (`taxi/timesheet/parser.py`)

Shallow embedding of the timesheet line model and parser:

* `TextLine` / `EntryLine` / `DateLine` become the `Line` inductive and the
  `EntryLine` structure; the Python 7-tuple `_text` becomes `Tup7`.
* Python exceptions become the `PyErr` error type carried by `Except`.
* The Python `re` module is embedded as a small backtracking matcher
  (`mmatch`) over a regex AST (`RE`) that returns all matches in Python's
  backtracking preference order (alternation prefers the left branch,
  greedy repetition prefers longer matches, lazy repetition shorter ones).
  `re.match` is the first result (prefix match); a pattern anchored with
  `^...$` is the first result with empty remainder.  Every repetition in
  the source's patterns repeats a single character class, so the AST only
  needs a character-class `plus`; bounded repetitions such as `\d{1,2}`
  are unfolded into concatenation with an optional.
* Character classes (`\w`, `\d`, `\s`, `.`) are modelled over their ASCII
  meaning; Python's extra Unicode whitespace/digit characters are outside
  the scope of the timesheet format.
* Python `float` values produced by `float(tok)` for tokens matching
  `\d+(\.\d+)?` are modelled as `PyFloat`, a normalized decimal
  (integer part plus fraction digits without trailing zeros); `str()` of
  such a float is its shortest round-trip decimal, which for tokens of at
  most 15 significant digits is exactly this normalized form with `.0`
  appended to integral values.
-/

/-- Python exceptions relevant to the parser.  `parseError` carries the
message and the optional `line_number` / `line` attributes that
`TimesheetParser.parser` attaches; `valueError` is `ValueError`;
`unboundLocal` models `UnboundLocalError` (a local variable read before
assignment). -/
inductive PyErr where
  | parseError (msg : String) (lineNumber : Option Nat) (line : Option String)
  | valueError (msg : String)
  | unboundLocal
deriving DecidableEq, Repr

/-- `datetime.date`: construction is validated by `mkDate`. -/
structure PyDate where
  year : Nat
  month : Nat
  day : Nat
deriving DecidableEq, Repr

/-- `datetime.time` restricted to the fields the parser uses:
construction is validated by `mkTime`. -/
structure PyTime where
  hour : Nat
  minute : Nat
deriving DecidableEq, Repr

/-- Gregorian leap-year rule used by `datetime`. -/
def isLeapYear (y : Nat) : Bool :=
  y % 4 == 0 && (y % 100 != 0 || y % 400 == 0)

/-- Days in a month, as validated by `datetime.date`. -/
def daysInMonth (y m : Nat) : Nat :=
  if m == 2 then (if isLeapYear y then 29 else 28)
  else if m == 4 || m == 6 || m == 9 || m == 11 then 30
  else 31

/-- `datetime.date(y, m, d)`: validates year, month, day in that order and
raises `ValueError` on out-of-range values. -/
def mkDate (y m d : Nat) : Except PyErr PyDate :=
  if !(1 ≤ y && y ≤ 9999) then .error (.valueError "year must be in 1..9999")
  else if !(1 ≤ m && m ≤ 12) then .error (.valueError "month must be in 1..12")
  else if !(1 ≤ d && d ≤ daysInMonth y m) then
    .error (.valueError "day is out of range for month")
  else .ok ⟨y, m, d⟩

/-- `datetime.time(h, m)`: validates hour then minute and raises
`ValueError` on out-of-range values. -/
def mkTime (h m : Nat) : Except PyErr PyTime :=
  if !(h ≤ 23) then .error (.valueError "hour must be in 0..23")
  else if !(m ≤ 59) then .error (.valueError "minute must be in 0..59")
  else .ok ⟨h, m⟩

/-- Python whitespace (`str.strip`, regex `\s`), restricted to the ASCII
whitespace characters. -/
def isPySpace (c : Char) : Bool :=
  c == ' ' || c == '\t' || c == '\n' || c == '\r' ||
    c == Char.ofNat 11 || c == Char.ofNat 12

/-- Python `str.splitlines` line boundaries, restricted to the ASCII ones
(`\n`, `\r`, `\v`, `\f`; `\r\n` counts as a single boundary). -/
def isLineBoundary (c : Char) : Bool :=
  c == '\n' || c == '\r' || c == Char.ofNat 11 || c == Char.ofNat 12

/-- Regex `\w` (ASCII): letters, digits and underscore. -/
def isWordChar (c : Char) : Bool :=
  c.isAlphanum || c == '_'

/-- Regex `.`: any character except a newline. -/
def isNotNL (c : Char) : Bool :=
  c != '\n'

/-- The character class `[?\w_-]` of the alias group. -/
def isAliasChar (c : Char) : Bool :=
  c == '?' || isWordChar c || c == '_' || c == '-'

/-- `str.strip()`: drop leading and trailing whitespace. -/
def pyStrip (cs : List Char) : List Char :=
  ((cs.dropWhile isPySpace).reverse.dropWhile isPySpace).reverse

/-- `str.replace('\t', ' ' * 4)`. -/
def tabExpand (cs : List Char) : List Char :=
  cs.flatMap (fun c => if c == '\t' then [' ', ' ', ' ', ' '] else [c])

/-- Worker for `str.splitlines()`: `acc` holds the current line's
characters in reverse; a line ends at a boundary (`\r\n` counting as
one) and a trailing boundary does not open a final empty line. -/
def splitlinesGo (acc : List Char) : List Char → List (List Char)
  | [] => [acc.reverse]
  | '\r' :: '\n' :: rest =>
    acc.reverse :: (match rest with
      | [] => []
      | _ :: _ => splitlinesGo [] rest)
  | c :: rest =>
    if isLineBoundary c then
      acc.reverse :: (match rest with
        | [] => []
        | _ :: _ => splitlinesGo [] rest)
    else splitlinesGo (c :: acc) rest

/-- `str.splitlines()` (ASCII boundaries): maximal boundary-free
segments; a trailing boundary does not create a final empty line; the
empty string has no lines. -/
def pySplitlines (cs : List Char) : List (List Char) :=
  match cs with
  | [] => []
  | _ :: _ => splitlinesGo [] cs

/-- `int()` of a nonempty string of ASCII digits. -/
def natOfDigits (cs : List Char) : Nat :=
  cs.foldl (fun a c => a * 10 + (c.toNat - 48)) 0

/-! ## Python `float` model (decimal literals) -/

/-- A Python `float` produced from a decimal literal of at most 15
significant digits, in normalized form: integer part as a `Nat` and
fraction digits without trailing zeros.  `str()`/`repr()` of such a float
is the shortest round-tripping decimal, i.e. exactly this normalized form
(with `.0` when the fraction is empty). -/
structure PyFloat where
  ip : Nat
  frac : List Char
deriving DecidableEq, Repr

/-- Strip trailing `'0'` characters. -/
def stripTrailingZeros (l : List Char) : List Char :=
  (l.reverse.dropWhile (fun c => c == '0')).reverse

/-- `float(tok)` for a token matching `\d+(\.\d+)?`. -/
def pyFloatOfLit (tok : List Char) : PyFloat :=
  ⟨natOfDigits (tok.takeWhile (fun c => c != '.')),
   stripTrailingZeros ((tok.dropWhile (fun c => c != '.')).drop 1)⟩

/-- A Python numeric duration value: `int` or `float`
(`EntryLine.duration` holds an `int` when user code assigns one, a
`float` when it comes from the parser). -/
inductive PyNum where
  | int (n : Int)
  | float (f : PyFloat)
deriving DecidableEq, Repr

/-- `six.text_type(x)` = `str(x)` for the numeric duration values. -/
def pyNumStr : PyNum → String
  | .int n => toString n
  | .float f =>
      toString f.ip ++ "." ++ (if f.frac.isEmpty then "0" else String.mk f.frac)

/-! ## Regex engine

A backtracking matcher over a small AST, returning all matches in
Python's preference order. -/

/-- Regex AST.  Repetition only ever applies to a character class in the
source patterns, so `plus` repeats a class (greedy or lazy); `{1,2}` and
`?` are unfolded using `alt`/`eps`. -/
inductive RE where
  | eps
  | chr (p : Char → Bool)
  | cat (r s : RE)
  | alt (r s : RE)
  | plus (p : Char → Bool) (greedy : Bool)
  | group (n : Nat) (r : RE)

/-- `X?` (greedy): try the body first, then the empty match. -/
def optRE (r : RE) : RE := .alt r .eps

/-- One match attempt: consumed characters, remaining input, captures. -/
structure MRes where
  c : List Char
  rest : List Char
  caps : List (Nat × List Char)
deriving DecidableEq, Repr

/-- All nonempty all-`p` prefixes of the input, shortest first, paired
with the corresponding rest. -/
def prefixesAsc (p : Char → Bool) : List Char → List (List Char × List Char)
  | [] => []
  | a :: as =>
    if p a then
      ([a], as) :: (prefixesAsc p as).map (fun x => (a :: x.1, x.2))
    else []

/-- All matches of a regex against an input, in Python's backtracking
preference order: alternation prefers the left operand, concatenation
orders lexicographically by the left operand's preferences, a greedy
class repetition prefers the longest prefix, a lazy one the shortest. -/
def mmatch : RE → List Char → List MRes
  | .eps, input => [⟨[], input, []⟩]
  | .chr _, [] => []
  | .chr p, a :: as => if p a then [⟨[a], as, []⟩] else []
  | .cat r s, input =>
    (mmatch r input).flatMap (fun m1 =>
      (mmatch s m1.rest).map (fun m2 =>
        ⟨m1.c ++ m2.c, m2.rest, m1.caps ++ m2.caps⟩))
  | .alt r s, input => mmatch r input ++ mmatch s input
  | .plus p greedy, input =>
    let ps := prefixesAsc p input
    (if greedy then ps.reverse else ps).map (fun x => ⟨x.1, x.2, []⟩)
  | .group n r, input =>
    (mmatch r input).map (fun m => ⟨m.c, m.rest, m.caps ++ [(n, m.c)]⟩)

/-- `re.match` with a pattern anchored as `^...$`: the first
preference-ordered match consuming the whole input. -/
def fullMatch (r : RE) (s : List Char) : Option (List (Nat × List Char)) :=
  ((mmatch r s).find? (fun m => m.rest.isEmpty)).map (fun m => m.caps)

/-- `re.match` with an unanchored pattern: the first preference-ordered
match at the start of the input (any remainder). -/
def preMatch (r : RE) (s : List Char) : Option (List (Nat × List Char)) :=
  ((mmatch r s).head?).map (fun m => m.caps)

/-- `match.group(n)`: `none` when the group did not participate in the
match. -/
def gcap (caps : List (Nat × List Char)) (n : Nat) : Option (List Char) :=
  (caps.find? (fun p => p.1 == n)).map (fun p => p.2)

/-- The group numbers occurring in a regex. -/
def RE.keys : RE → List Nat
  | .eps => []
  | .chr _ => []
  | .plus _ _ => []
  | .cat r s => r.keys ++ s.keys
  | .alt r s => r.keys ++ s.keys
  | .group n r => n :: r.keys

/-! ## The source's regexes -/

/-- Group numbers of `entry_match_re`, in the order the groups open. -/
def GFLAGS : Nat := 1
def GSP1 : Nat := 2
def GALIAS : Nat := 3
def GSP2 : Nat := 4
def GTIME : Nat := 5
def GSTART : Nat := 6
def GEND : Nat := 7
def GDUR : Nat := 8
def GSP3 : Nat := 9
def GDESC : Nat := 10

/-- `\d{1,2}` (greedy: two digits preferred over one). -/
def d12RE : RE := .cat (.chr Char.isDigit) (optRE (.chr Char.isDigit))

/-- `(?:\d{1,2}):?(?:\d{1,2})` — a clock time, colon optional. -/
def timeNumRE : RE :=
  .cat d12RE (.cat (optRE (.chr (fun c => c == ':'))) d12RE)

/-- `(?:(?P<start_time>...)?-(?P<end_time>...|\?))` — the range branch of
the time token. -/
def rangeRE : RE :=
  .cat (optRE (.group GSTART timeNumRE))
    (.cat (.chr (fun c => c == '-'))
      (.group GEND (.alt timeNumRE (.chr (fun c => c == '?')))))

/-- `(?P<duration>\d+(?:\.\d+)?)` — the fixed-hours branch. -/
def durRE : RE :=
  .group GDUR (.cat (.plus Char.isDigit true)
    (optRE (.cat (.chr (fun c => c == '.')) (.plus Char.isDigit true))))

/-- `(?P<time>range|duration)`. -/
def timeGroupRE : RE := .group GTIME (.alt rangeRE durRE)

/-- `(?:(?P<flags>.+?)(?P<spacing1>\s+))?`. -/
def flagsOptRE : RE :=
  optRE (.cat (.group GFLAGS (.plus isNotNL false))
    (.group GSP1 (.plus isPySpace true)))

/-- `TimesheetParser.entry_match_re`. -/
def entryRE : RE :=
  .cat flagsOptRE
    (.cat (.group GALIAS (.plus isAliasChar true))
      (.cat (.group GSP2 (.plus isPySpace true))
        (.cat timeGroupRE
          (.cat (.group GSP3 (.plus isPySpace true))
            (.group GDESC (.plus isNotNL true))))))

/-- `\d\d\d\d` (the `\d{4}` alternative). -/
def d4RE : RE :=
  .cat (.chr Char.isDigit) (.cat (.chr Char.isDigit)
    (.cat (.chr Char.isDigit) (.chr Char.isDigit)))

/-- `\d\d` (the `\d{2}` alternative). -/
def d2RE : RE := .cat (.chr Char.isDigit) (.chr Char.isDigit)

/-- `\D`: any non-digit. -/
def nonDigitRE : RE := .chr (fun c => !c.isDigit)

/-- `TimesheetParser.date_match_re`:
`(\d{1,2})\D(\d{1,2})\D(\d{4}|\d{2})`. -/
def dateRE : RE :=
  .cat (.group 1 d12RE) (.cat nonDigitRE
    (.cat (.group 2 d12RE) (.cat nonDigitRE
      (.group 3 (.alt d4RE d2RE)))))

/-- `TimesheetParser.us_date_match_re`:
`(\d{4})\D(\d{1,2})\D(\d{1,2})`. -/
def usDateRE : RE :=
  .cat (.group 1 d4RE) (.cat nonDigitRE
    (.cat (.group 2 d12RE) (.cat nonDigitRE (.group 3 d12RE))))

/-! ## Line model (`TextLine`, `EntryLine`, `DateLine`) -/

/-- The entry flag set (`FlaggableMixin._flags` restricted to the two
flags `FLAG_IGNORED` / `FLAG_PUSHED`). -/
structure PyFlags where
  ignored : Bool
  pushed : Bool
deriving DecidableEq, Repr

/-- Truthiness of the flag set (`not self._flags`). -/
def PyFlags.isEmpty (f : PyFlags) : Bool := !f.ignored && !f.pushed

/-- The 7-tuple `EntryLine._text`:
`(flags, spacing1, alias, spacing2, time, spacing3, description)`. -/
structure Tup7 where
  f0 : String
  f1 : String
  f2 : String
  f3 : String
  f4 : String
  f5 : String
  f6 : String
deriving DecidableEq, Repr

/-- Positional indexing into the tuple, as the Python loop does. -/
def Tup7.idx : Tup7 → Nat → String
  | t, 0 => t.f0
  | t, 1 => t.f1
  | t, 2 => t.f2
  | t, 3 => t.f3
  | t, 4 => t.f4
  | t, 5 => t.f5
  | t, 6 => t.f6
  | _, _ => ""

/-- `''.join` of the tuple: the text the line was parsed from. -/
def Tup7.joined (t : Tup7) : String :=
  t.f0 ++ t.f1 ++ t.f2 ++ t.f3 ++ t.f4 ++ t.f5 ++ t.f6

/-- `EntryLine.duration`: either a numeric value (`float` from the
parser, possibly an `int` when assigned by user code) or the
`(start, end)` tuple of optional times. -/
inductive Duration where
  | num (v : PyNum)
  | range (start stop : Option PyTime)
deriving DecidableEq, Repr

/-- `time.strftime('%H:%M')`: both fields zero-padded to two digits. -/
def pad2 (n : Nat) : String := (if n < 10 then "0" else "") ++ toString n

/-- `%H:%M` rendering of a time. -/
def strftimeHM (t : PyTime) : String := pad2 t.hour ++ ":" ++ pad2 t.minute

/-- `EntryLine.duration_as_text`: a tuple renders as
`start.strftime('%H:%M')-end.strftime('%H:%M')` with `''` for a `None`
start and `?` for a `None` end; any other value renders as
`six.text_type(value)` = `str(value)`. -/
def durationAsText : Duration → String
  | .range st en =>
    (match st with | some t => strftimeHM t | none => "") ++ "-" ++
      (match en with | some t => strftimeHM t | none => "?")
  | .num v => pyNumStr v

/-- `EntryLine._changed_attrs` as per-attribute dirty bits. -/
structure Changed where
  flags : Bool
  «alias» : Bool
  duration : Bool
  description : Bool
deriving DecidableEq, Repr

/-- The `EntryLine` object: logical attributes, flag set, original
token/spacer tuple and change tracking. -/
structure EntryLine where
  «alias» : String
  duration : Duration
  description : String
  flags : PyFlags
  t : Tup7
  changed : Changed
deriving DecidableEq, Repr

/-- `EntryLine.flags_as_text`: one symbol per flag (`?` for Ignored, `=`
for Pushed).  CPython iterates the set `{1, 2}` in increasing order, so
Ignored renders before Pushed. -/
def EntryLine.flagsAsText (e : EntryLine) : String :=
  (if e.flags.ignored then "?" else "") ++ (if e.flags.pushed then "=" else "")

/-- `ATTRS_POSITION`-membership of a tuple index. -/
def isAttrPos (i : Nat) : Bool := i == 0 || i == 2 || i == 4 || i == 6

/-- Whether the attribute at tuple position `i` is in `_changed_attrs`. -/
def attrChanged (e : EntryLine) : Nat → Bool
  | 0 => e.changed.flags
  | 2 => e.changed.alias
  | 4 => e.changed.duration
  | 6 => e.changed.description
  | _ => false

/-- The freshly formatted value of the attribute at tuple position `i`
(`ATTRS_TRANSFORMERS` routes flags and duration through their `_as_text`
properties). -/
def attrValue (e : EntryLine) : Nat → String
  | 0 => e.flagsAsText
  | 2 => e.alias
  | 4 => durationAsText e.duration
  | 6 => e.description
  | _ => ""

/-- `' ' * n`. -/
def spaces (n : Nat) : String := String.mk (List.replicate n ' ')

/-- One iteration of the loop in the `EntryLine.text` property: `line`
is the list built so far, `i` the tuple position.  Attribute positions
substitute the fresh value only when changed; position 1 (the spacer
after the flags) becomes `''` when the flag set is empty and `' '`
otherwise; later spacer positions are re-padded (at least one space)
when the regenerated preceding field changed length.  Subtraction is
over Python ints, hence the `Int` arithmetic. -/
def textStep (e : EntryLine) (line : List String) (i : Nat) : List String :=
  if isAttrPos i then
    line ++ [if attrChanged e i then attrValue e i else e.t.idx i]
  else
    let text := e.t.idx i
    let text :=
      if i == 1 then (if e.flags.isEmpty then "" else " ")
      else if 0 < i && (line.getD (i - 1) "").length != (e.t.idx (i - 1)).length then
        spaces (Int.toNat (max 1 ((text.length : Int) -
          (((line.getD (i - 1) "").length : Int) - ((e.t.idx (i - 1)).length : Int)))))
      else text
    line ++ [text]

/-- The `EntryLine.text` property: walk the 7-tuple positionally and
join the regenerated pieces. -/
def EntryLine.text (e : EntryLine) : String :=
  String.join ((List.range 7).foldl (textStep e) [])

/-- A parsed line: blank/comment (`TextLine`), date header (`DateLine`,
which stores the raw line as its text) or entry. -/
inductive Line where
  | text (s : String)
  | date (d : PyDate) (s : String)
  | entry (e : EntryLine)
deriving DecidableEq, Repr

/-! ## `TimesheetParser` -/

def msgEntryPattern : String := "Line must have an alias, a duration and a description"
def msgDateSection : String := "Entries must be defined inside a date section"
def msgDurationFormat : String := "Duration must be in format hh:mm or hhmm"

/-- `TimesheetParser.parse_time`: strip colons, require at least three
digits (`^\d{3,}$`), last two digits are the minutes, the first two (or
the first one for a 3-digit string) the hours; `datetime.time` validates
the ranges. -/
def parse_time (s : List Char) : Except PyErr PyTime :=
  if 3 ≤ (s.filter (fun c => c != ':')).length &&
      (s.filter (fun c => c != ':')).all Char.isDigit then
    mkTime
      (natOfDigits (if 3 < (s.filter (fun c => c != ':')).length
        then (s.filter (fun c => c != ':')).take 2
        else (s.filter (fun c => c != ':')).take 1))
      (natOfDigits ((s.filter (fun c => c != ':')).drop
        ((s.filter (fun c => c != ':')).length - 2)))
  else .error (.valueError "Time must be numeric")

/-- The matched groups of `extract_date`: try `date_match_re`, then
`us_date_match_re` (both are unanchored `re.match`, i.e. prefix
matches). -/
def dateGroups (line : List Char) : Option (List (Nat × List Char)) :=
  match preMatch dateRE line with
  | some caps => some caps
  | none => preMatch usDateRE line

/-- `TimesheetParser.extract_date`: a 4-digit first group means
`yyyy/mm/dd`; otherwise `dd/mm/yy` maps a 2-digit year into the current
millennium (`current_year - current_year % 1000 + yy`) and `dd/mm/yyyy`
uses the year literally.  No match raises `ValueError`; so does
`datetime.date` on out-of-range fields. -/
def extract_date (currentYear : Nat) (line : List Char) : Except PyErr PyDate :=
  match dateGroups line with
  | none => .error (.valueError "No date could be extracted from the given value")
  | some caps =>
    let g1 := (gcap caps 1).getD []
    let g2 := (gcap caps 2).getD []
    let g3 := (gcap caps 3).getD []
    if g1.length == 4 then
      mkDate (natOfDigits g1) (natOfDigits g2) (natOfDigits g3)
    else if g3.length == 2 then
      mkDate (currentYear - currentYear % 1000 + natOfDigits g3)
        (natOfDigits g2) (natOfDigits g1)
    else
      mkDate (natOfDigits g3) (natOfDigits g2) (natOfDigits g1)

/-- `re.match(entry_match_re, line)` (the pattern is anchored
`^...$`). -/
def entryMatch (line : List Char) : Option (List (Nat × List Char)) :=
  fullMatch entryRE line

/-- The start-time step of `parse_entry_line`: an absent group yields
`None`; an empty string would too; otherwise `parse_time`, with
`ValueError` translated into `ParseError`. -/
def startTimeOf (caps : List (Nat × List Char)) : Except PyErr (Option PyTime) :=
  match gcap caps GSTART with
  | none => .ok none
  | some s =>
    if s.isEmpty then .ok none
    else
      match parse_time s with
      | .ok t => .ok (some t)
      | .error _ => .error (.parseError msgDurationFormat none none)

/-- The end-time step of `parse_entry_line`: an absent group yields
`None`, a literal `?` yields `None`, otherwise `parse_time` — whose
`ValueError` is NOT caught here and propagates. -/
def endTimeOf (caps : List (Nat × List Char)) : Except PyErr (Option PyTime) :=
  match gcap caps GEND with
  | none => .ok none
  | some s =>
    if s == ['?'] then .ok none
    else (parse_time s).map some

/-- The `duration` local of `parse_entry_line`: assigned the
`(start, end)` tuple when either bound is truthy (time objects are
always truthy on Python ≥ 3.5), then overwritten by the float when the
`duration` group matched; `none` models the local never being
assigned. -/
def durationOf (caps : List (Nat × List Char)) (st en : Option PyTime) :
    Option Duration :=
  match gcap caps GDUR with
  | some tok => some (.num (.float (pyFloatOfLit tok)))
  | none => if st.isSome || en.isSome then some (.range st en) else none

/-- `TimesheetParser.parse_entry_line`.  The alias keeps only its
non-`?` characters; the flag set is read off the flags group (`?` →
Ignored, `=` → Pushed); the stored tuple replaces the two optional
groups by `''` when absent (`or ''`).  Reading the never-assigned
`duration` local raises `UnboundLocalError`. -/
def parse_entry_line (line : String) : Except PyErr EntryLine :=
  match entryMatch line.toList with
  | none => .error (.parseError msgEntryPattern none none)
  | some caps =>
    let aliasStr := String.mk (((gcap caps GALIAS).getD []).filter (fun c => c != '?'))
    match startTimeOf caps with
    | .error e => .error e
    | .ok st =>
      match endTimeOf caps with
      | .error e => .error e
      | .ok en =>
        match durationOf caps st en with
        | none => .error .unboundLocal
        | some dur =>
          .ok ⟨aliasStr, dur, String.mk ((gcap caps GDESC).getD []),
            ⟨(match gcap caps GFLAGS with
              | some f => f.contains '?'
              | none => false),
             (match gcap caps GFLAGS with
              | some f => f.contains '='
              | none => false)⟩,
            ⟨String.mk ((gcap caps GFLAGS).getD []),
             String.mk ((gcap caps GSP1).getD []),
             String.mk ((gcap caps GALIAS).getD []),
             String.mk ((gcap caps GSP2).getD []),
             String.mk ((gcap caps GTIME).getD []),
             String.mk ((gcap caps GSP3).getD []),
             String.mk ((gcap caps GDESC).getD [])⟩,
            ⟨false, false, false, false⟩⟩

/-- `line.startswith('#')`. -/
def startsWithHash (s : String) : Bool :=
  match s.toList with
  | c :: _ => c == '#'
  | [] => false

/-- Step 1 of the per-line algorithm: `len(line) == 0 or
line.startswith('#')`. -/
def blankOrComment (line : String) : Bool :=
  line.length == 0 || startsWithHash line

/-- The per-line preprocessing in `TimesheetParser.parser`:
`line.strip()` then `line.replace('\t', ' ' * 4)`. -/
def cleanLine (raw : String) : String :=
  String.mk (tabExpand (pyStrip raw.toList))

/-- `TimesheetParser.parser`, one line at a time with 1-based line
numbers.  Blank/comment lines yield `TextLine`; a successful
`extract_date` opens a date section and yields `DateLine`; otherwise an
entry line requires an open section.  Any `ParseError` raised for a line
gets that line's number and (cleaned) text attached; other exceptions
(the untranslated `ValueError` from an invalid end time) propagate
unchanged. -/
def parserGo (currentYear : Nat) (cur : Option PyDate) (lineno : Nat) :
    List String → Except PyErr (List Line)
  | [] => .ok []
  | raw :: rest =>
    if blankOrComment (cleanLine raw) then
      (parserGo currentYear cur (lineno + 1) rest).map
        (fun ls => Line.text (cleanLine raw) :: ls)
    else
      match extract_date currentYear (cleanLine raw).toList with
      | .ok d =>
        (parserGo currentYear (some d) (lineno + 1) rest).map
          (fun ls => Line.date d (cleanLine raw) :: ls)
      | .error _ =>
        if cur.isNone then
          .error (.parseError msgDateSection (some lineno) (some (cleanLine raw)))
        else
          match parse_entry_line (cleanLine raw) with
          | .ok e =>
            (parserGo currentYear cur (lineno + 1) rest).map
              (fun ls => Line.entry e :: ls)
          | .error (.parseError m _ _) =>
            .error (.parseError m (some lineno) (some (cleanLine raw)))
          | .error e => .error e

/-- `TimesheetParser.parse`: strip the whole text, split it into lines,
run the line machine. -/
def parse (currentYear : Nat) (text : String) : Except PyErr (List Line) :=
  parserGo currentYear none 1 ((pySplitlines (pyStrip text.toList)).map String.mk)

/-! ## Helper predicates used by the claim statements -/

/-- Success test for `Except`. -/
def isOkE {α β : Type} : Except α β → Bool
  | .ok _ => true
  | .error _ => false

/-- How one raw line updates the open date section: only a successful
date extraction on a non-blank, non-comment line changes it. -/
def stepDate (cy : Nat) (cur : Option PyDate) (raw : String) : Option PyDate :=
  if blankOrComment (cleanLine raw) then cur
  else
    match extract_date cy (cleanLine raw).toList with
    | .ok d => some d
    | .error _ => cur

/-- The open date section after a prefix of raw lines. -/
def openAfter (cy : Nat) (cur : Option PyDate) (raws : List String) : Option PyDate :=
  raws.foldl (stepDate cy) cur

/-- A raw line the parser passes without error, given the open date
section. -/
def lineOkB (cy : Nat) (cur : Option PyDate) (raw : String) : Bool :=
  blankOrComment (cleanLine raw) ||
    isOkE (extract_date cy (cleanLine raw).toList) ||
    (cur.isSome && isOkE (parse_entry_line (cleanLine raw)))

/-- A matched entry line whose start-time group is present, nonempty and
rejected by `parse_time` — the case `parse_entry_line` translates into
`ParseError msgDurationFormat`. -/
def startBad (caps : List (Nat × List Char)) : Bool :=
  match gcap caps GSTART with
  | none => false
  | some s => !s.isEmpty && !(isOkE (parse_time s))

/-- The ways a single line can abort the parse with a `ParseError`,
given the currently open date section: the line is neither blank nor a
comment, date extraction fails, and either (a) no date section is open
(message `msgDateSection`), or (b) the combined entry pattern does not
match (message `msgEntryPattern`), or (c) it matches but the start time
is invalid (message `msgDurationFormat`). -/
def failClause (cy : Nat) (cur : Option PyDate) (raw : String) (msg : String) :
    Prop :=
  blankOrComment (cleanLine raw) = false ∧
  isOkE (extract_date cy (cleanLine raw).toList) = false ∧
  ((cur = none ∧ msg = msgDateSection) ∨
   (cur.isSome = true ∧ entryMatch (cleanLine raw).toList = none ∧
     msg = msgEntryPattern) ∨
   (cur.isSome = true ∧ ∃ caps, entryMatch (cleanLine raw).toList = some caps ∧
     startBad caps = true ∧ msg = msgDurationFormat))

/-- The parse aborts with `ParseError msg` carrying line number `n` and
line text `ln` exactly when some line at index `k` is the first to fail:
all earlier lines pass (given the open date section the prefix
produces), line `k` satisfies one of the failure clauses for `msg`, and
the error carries `n0 + k` (1-based for `n0 = 1`) and the cleaned line
text. -/
def firstFailAt (cy : Nat) (cur : Option PyDate) (n0 : Nat) (ls : List String)
    (msg : String) (n : Option Nat) (ln : Option String) : Prop :=
  ∃ k raw, ls[k]? = some raw ∧ n = some (n0 + k) ∧ ln = some (cleanLine raw) ∧
    (∀ j, j < k → ∀ raw2, ls[j]? = some raw2 →
      lineOkB cy (openAfter cy cur (ls.take j)) raw2 = true) ∧
    failClause cy (openAfter cy cur (ls.take k)) raw msg

/-- `Duration.isFixed`: the duration is the numeric (non-range)
variant. -/
def Duration.isFixed : Duration → Bool
  | .num _ => true
  | .range _ _ => false

/-- `EntryLine.remove_flag(FLAG_PUSHED)`: drops the flag and adds
`'flags'` to `_changed_attrs`. -/
def EntryLine.removeFlagPushed (e : EntryLine) : EntryLine :=
  ⟨e.alias, e.duration, e.description, ⟨e.flags.ignored, false⟩, e.t,
   ⟨true, e.changed.alias, e.changed.duration, e.changed.description⟩⟩

/-- Attribute assignment `entry.duration = value`: `__setattr__` adds
`'duration'` to `_changed_attrs`. -/
def EntryLine.setDuration (e : EntryLine) (d : Duration) : EntryLine :=
  ⟨e.alias, d, e.description, e.flags, e.t,
   ⟨e.changed.flags, e.changed.alias, true, e.changed.description⟩⟩

/-- A parsed line that is a blank `TextLine`. -/
def Line.isBlank : Line → Bool
  | .text s => s.isEmpty
  | _ => false

/-- The changed-attribute set in its initial (empty) state. -/
def noChange : Changed := ⟨false, false, false, false⟩

/-! ## Theorems -/

/-- Unfolding of the `EntryLine.text` loop into its seven regenerated
pieces: attribute positions substitute the fresh value only when marked
changed; the spacer after the flags (position 1) is `''`/`' '` by flag
set emptiness; the spacers after alias and duration are re-padded to
`max 1 (original width - length delta)` exactly when the regenerated
preceding field changed length. -/
theorem EntryLine.text_eq_join (e : EntryLine) :
    e.text = String.join
      [if e.changed.flags then e.flagsAsText else e.t.f0,
       if e.flags.isEmpty then "" else " ",
       if e.changed.alias then e.alias else e.t.f2,
       if (if e.changed.alias then e.alias else e.t.f2).length != e.t.f2.length then
         spaces (Int.toNat (max 1 ((e.t.f3.length : Int) -
           (((if e.changed.alias then e.alias else e.t.f2).length : Int) -
             (e.t.f2.length : Int)))))
       else e.t.f3,
       if e.changed.duration then durationAsText e.duration else e.t.f4,
       if (if e.changed.duration then durationAsText e.duration else e.t.f4).length
            != e.t.f4.length then
         spaces (Int.toNat (max 1 ((e.t.f5.length : Int) -
           (((if e.changed.duration then durationAsText e.duration
               else e.t.f4).length : Int) - (e.t.f4.length : Int)))))
       else e.t.f5,
       if e.changed.description then e.description else e.t.f6] := by
  cases e with
  | mk al dur desc fl t ch => rfl

/-- Helper: every `EntryLine` returned by `parse_entry_line` has an
empty changed-attribute set. -/
theorem parse_entry_line_changed (s : String) (e : EntryLine)
    (h : parse_entry_line s = .ok e) : e.changed = noChange := by
  unfold parse_entry_line at h
  repeat' split at h
  all_goals simp_all
  all_goals (subst h; rfl)

/-- C1 (counterexample): the line `"?  foo 2 bar"` (two spaces after the
flags token) parses with no attribute changed, yet regenerating its text
yields `"? foo 2 bar"`, not the stored original tuple joined
(`"?  foo 2 bar"`): the flags spacer is normalized, so unmodified text is
not returned verbatim. -/
theorem c1_roundtrip_counterexample :
    (parse_entry_line "?  foo 2 bar").map (fun e => (e.t.joined, e.text)) =
      .ok ("?  foo 2 bar", "? foo 2 bar") ∧
    ("? foo 2 bar" : String) ≠ "?  foo 2 bar" :=
  ⟨rfl, by decide⟩

/-- C1 (amended): for every `EntryLine` with an empty changed-attribute
set — which includes every entry line returned by `parse_entry_line` —
the regenerated text is the stored original tokens and spacers joined
verbatim EXCEPT the spacer after the flags token, which is regenerated
as one space when the parsed flag set is nonempty and as the empty
string when it is empty.  (Blank/comment and date lines return their
stored text verbatim by construction of `Line`.) -/
theorem c1_roundtrip :
    (∀ e : EntryLine, e.changed = noChange →
      e.text = String.join [e.t.f0, if e.flags.isEmpty then "" else " ",
        e.t.f2, e.t.f3, e.t.f4, e.t.f5, e.t.f6]) ∧
    (∀ (s : String) (e : EntryLine), parse_entry_line s = .ok e →
      e.changed = noChange) := by
  constructor
  · intro e h
    rw [EntryLine.text_eq_join]
    rw [h]
    simp [noChange]
  · intro s e h
    unfold parse_entry_line at h
    repeat' split at h
    all_goals simp_all
    all_goals (subst h; rfl)

/-- C1 (witness): the amended statement evaluated on a flagless entry
line and on the parsed `"? foo 2 bar"`. -/
theorem c1_roundtrip_witness :
    (⟨"foo", .num (.float ⟨2, []⟩), "bar", ⟨false, false⟩,
      ⟨"", "", "foo", " ", "2", " ", "bar"⟩, noChange⟩ : EntryLine).text =
      "foo 2 bar" ∧
    (⟨"foo", .num (.float ⟨2, []⟩), "bar", ⟨true, false⟩,
      ⟨"?", " ", "foo", " ", "2", " ", "bar"⟩, noChange⟩ : EntryLine).changed =
      noChange :=
  ⟨(c1_roundtrip.1 _ rfl).trans rfl, c1_roundtrip.2 "? foo 2 bar" _ rfl⟩

/-- C2 (counterexample): `"foo? 2 bar"` parses to alias `"foo"` but with
`ignored = false` — the trailing `?` is stripped from the alias without
setting the Ignored flag, so the two forms are not equivalent. -/
theorem c2_trailing_qmark_counterexample :
    (parse_entry_line "foo? 2 bar").map (fun e => (e.alias, e.flags.ignored)) =
      .ok ("foo", false) ∧
    (("foo", false) : String × Bool) ≠ ("foo", true) :=
  ⟨rfl, by decide⟩

/-- C2 (amended): both `"? foo 2 bar"` and `"foo? 2 bar"` store alias
`"foo"` (the `?` is stripped from the alias token), but only the
leading-flags form sets the Ignored flag; the trailing-`?` alias form
leaves the flag set empty. -/
theorem c2_flag_forms :
    (parse_entry_line "? foo 2 bar").map (fun e => (e.alias, e.flags.ignored)) =
      .ok ("foo", true) ∧
    (parse_entry_line "foo? 2 bar").map (fun e => (e.alias, e.flags.ignored)) =
      .ok ("foo", false) :=
  ⟨rfl, rfl⟩

/-- C4 (code bug): an out-of-range END time is NOT translated into
`ParseError`: `parse_entry_line "foo 10:00-99:99 bar"` raises the plain
`ValueError` from `datetime.time`, which also escapes `parse`
untranslated, while the same invalid time as the START is translated
into `ParseError("Duration must be in format hh:mm or hhmm")` as the
claim (and the function's docstring) describe. -/
theorem c4_end_time_valueerror :
    parse_entry_line "foo 10:00-99:99 bar" =
      .error (.valueError "hour must be in 0..23") ∧
    parse_entry_line "foo 99:99-10:00 bar" =
      .error (.parseError msgDurationFormat none none) ∧
    parse 2026 "1.1.2013\nfoo 10:00-99:99 bar" =
      .error (.valueError "hour must be in 0..23") :=
  ⟨rfl, rfl, rfl⟩

/-- C6 (counterexample): the parser stores fixed durations as Python
floats, and `str(2.0)` is `"2.0"`: after re-assigning the parsed entry's
duration (marking it changed), `duration_as_text` and the regenerated
text contain the trailing `.0`, contradicting the claimed plain decimal
rendering `"2"`. -/
theorem c6_duration_counterexample :
    (parse_entry_line "foo 2 bar").map
      (fun e => ((e.setDuration (.num (.float ⟨2, []⟩))).text,
        durationAsText (e.setDuration (.num (.float ⟨2, []⟩))).duration)) =
      .ok ("foo 2.0 bar", "2.0") ∧
    ("2.0" : String) ≠ "2" :=
  ⟨rfl, by decide⟩

/-- C6 (amended): `duration_as_text` renders a range as the `%H:%M`
forms joined by `-`, with `?` for a `None` end and the empty string for
a `None` start; a numeric duration renders as Python `str()`: an
integral float carries a trailing `.0` (e.g. `2.0` → `"2.0"`), a
non-integral float renders as its decimal digits, and only an `int`
duration renders as the plain integer without `.0`. -/
theorem c6_duration_rendering :
    (∀ st en : Option PyTime, durationAsText (.range st en) =
      (match st with | some t => strftimeHM t | none => "") ++ "-" ++
        (match en with | some t => strftimeHM t | none => "?")) ∧
    (∀ ip : Nat, durationAsText (.num (.float ⟨ip, []⟩)) =
      toString ip ++ "." ++ "0") ∧
    (∀ (ip : Nat) (fr : List Char), fr ≠ [] →
      durationAsText (.num (.float ⟨ip, fr⟩)) =
        toString ip ++ "." ++ String.mk fr) ∧
    (∀ n : Int, durationAsText (.num (.int n)) = toString n) := by
  refine ⟨fun st en => rfl, fun ip => rfl, ?_, fun n => rfl⟩
  intro ip fr h
  simp [durationAsText, pyNumStr, h]

/-- C6 (witness): the amended statement evaluated at concrete
durations. -/
theorem c6_duration_rendering_witness :
    durationAsText (.range (some ⟨9, 0⟩) none) = "09:00-?" ∧
    durationAsText (.num (.float ⟨2, []⟩)) = "2.0" ∧
    durationAsText (.num (.float ⟨1, ['7', '5']⟩)) = "1.75" ∧
    durationAsText (.num (.int 4)) = "4" :=
  ⟨(c6_duration_rendering.1 (some ⟨9, 0⟩) none).trans rfl,
   (c6_duration_rendering.2.1 2).trans rfl,
   (c6_duration_rendering.2.2.1 1 ['7', '5'] (by decide)).trans rfl,
   (c6_duration_rendering.2.2.2 4).trans rfl⟩

/-- C7 (counterexample): removing the Pushed flag from the parsed
`"?= foo 2 bar"` shrinks the flags token from `"?="` to `"?"`, but the
spacer after it stays a single space (`"? foo 2 bar"`) instead of the
claimed `max 1 (1 - (1 - 2)) = 2` spaces (`"?  foo 2 bar"`): the spacer
after the flags field is not recomputed by the per-field formula. -/
theorem c7_spacer_counterexample :
    (parse_entry_line "?= foo 2 bar").map (fun e => e.removeFlagPushed.text) =
      .ok "? foo 2 bar" ∧
    ("? foo 2 bar" : String) ≠ "?  foo 2 bar" :=
  ⟨rfl, by decide⟩

/-- C7 (amended): in text regeneration the spacers after the alias and
after the duration are recomputed as `max 1 (original spacer width -
(new field length - original field length))` exactly when the
regenerated preceding field's length differs from the original (spacers
after fields of unchanged length are kept verbatim); the spacer after
the flags field is instead regenerated as exactly one space when the
flag set is nonempty and as the empty string otherwise, regardless of
its original width. -/
theorem c7_spacer_recompute (e : EntryLine) :
    e.text = String.join
      [if e.changed.flags then e.flagsAsText else e.t.f0,
       if e.flags.isEmpty then "" else " ",
       if e.changed.alias then e.alias else e.t.f2,
       if (if e.changed.alias then e.alias else e.t.f2).length != e.t.f2.length then
         spaces (Int.toNat (max 1 ((e.t.f3.length : Int) -
           (((if e.changed.alias then e.alias else e.t.f2).length : Int) -
             (e.t.f2.length : Int)))))
       else e.t.f3,
       if e.changed.duration then durationAsText e.duration else e.t.f4,
       if (if e.changed.duration then durationAsText e.duration else e.t.f4).length
            != e.t.f4.length then
         spaces (Int.toNat (max 1 ((e.t.f5.length : Int) -
           (((if e.changed.duration then durationAsText e.duration
               else e.t.f4).length : Int) - (e.t.f4.length : Int)))))
       else e.t.f5,
       if e.changed.description then e.description else e.t.f6] := by
  cases e with
  | mk al dur desc fl t ch => rfl

/-- C8 (code bug): on `"foo -? bar"` the combined entry pattern matches
(with an absent start group and end group `?`), both bounds come out
`None`, the `duration` local is never assigned, and reading it raises
`UnboundLocalError` — neither a `ParseError` nor an `EntryLine`.  (A
`Range` with both ends `None` is indeed never produced, but only because
the function crashes instead.) -/
theorem c8_unbound_duration :
    parse_entry_line "foo -? bar" = .error .unboundLocal ∧
    (entryMatch "foo -? bar".toList).isSome = true :=
  ⟨rfl, rfl⟩

/-! ## Regex engine lemmas (used by the C9 analysis) -/

/-- Membership in a concatenation match decomposes into matches of the
two parts. -/
theorem mem_mmatch_cat {r s : RE} {inp : List Char} {m : MRes}
    (h : m ∈ mmatch (.cat r s) inp) :
    ∃ m1 ∈ mmatch r inp, ∃ m2 ∈ mmatch s m1.rest,
      m = ⟨m1.c ++ m2.c, m2.rest, m1.caps ++ m2.caps⟩ := by
  simp only [mmatch, List.mem_flatMap, List.mem_map] at h
  obtain ⟨m1, h1, m2, h2, rfl⟩ := h
  exact ⟨m1, h1, m2, h2, rfl⟩

/-- Membership in an alternation match comes from one of the branches. -/
theorem mem_mmatch_alt {r s : RE} {inp : List Char} {m : MRes}
    (h : m ∈ mmatch (.alt r s) inp) :
    m ∈ mmatch r inp ∨ m ∈ mmatch s inp := by
  simpa only [mmatch, List.mem_append] using h

/-- Membership in a group match wraps an inner match and records the
capture. -/
theorem mem_mmatch_group {n : Nat} {r : RE} {inp : List Char} {m : MRes}
    (h : m ∈ mmatch (.group n r) inp) :
    ∃ m0 ∈ mmatch r inp, m = ⟨m0.c, m0.rest, m0.caps ++ [(n, m0.c)]⟩ := by
  simp only [mmatch, List.mem_map] at h
  obtain ⟨m0, h0, rfl⟩ := h
  exact ⟨m0, h0, rfl⟩

/-- A character-class match consumes exactly one satisfying character. -/
theorem mem_mmatch_chr {p : Char → Bool} {inp : List Char} {m : MRes}
    (h : m ∈ mmatch (.chr p) inp) :
    ∃ a as, inp = a :: as ∧ p a = true ∧ m = ⟨[a], as, []⟩ := by
  cases inp with
  | nil => simp [mmatch] at h
  | cons a as =>
    by_cases hp : p a
    · simp only [mmatch, hp, if_true, List.mem_singleton] at h
      exact ⟨a, as, rfl, hp, h⟩
    · simp [mmatch, hp] at h

/-- Every capture recorded by a match belongs to a group of the regex. -/
theorem mmatch_keys {r : RE} {inp : List Char} {m : MRes}
    (h : m ∈ mmatch r inp) : ∀ p ∈ m.caps, p.1 ∈ r.keys := by
  induction r generalizing inp m with
  | eps =>
    simp only [mmatch, List.mem_singleton] at h
    subst h; simp
  | chr p =>
    obtain ⟨a, as, _, _, rfl⟩ := mem_mmatch_chr h
    simp
  | cat r s ihr ihs =>
    obtain ⟨m1, h1, m2, h2, rfl⟩ := mem_mmatch_cat h
    intro p hp
    simp only [List.mem_append] at hp
    simp only [RE.keys, List.mem_append]
    rcases hp with hp | hp
    · exact Or.inl (ihr h1 p hp)
    · exact Or.inr (ihs h2 p hp)
  | alt r s ihr ihs =>
    intro p hp
    simp only [RE.keys, List.mem_append]
    rcases mem_mmatch_alt h with h | h
    · exact Or.inl (ihr h p hp)
    · exact Or.inr (ihs h p hp)
  | plus p g =>
    simp only [mmatch, List.mem_map] at h
    obtain ⟨x, _, rfl⟩ := h
    simp
  | group n r ih =>
    obtain ⟨m0, h0, rfl⟩ := mem_mmatch_group h
    intro p hp
    simp only [List.mem_append, List.mem_singleton] at hp
    simp only [RE.keys, List.mem_cons]
    rcases hp with hp | rfl
    · exact Or.inr (ih h0 p hp)
    · simp

/-- A group is absent from the captures exactly when no capture carries
its number. -/
theorem gcap_eq_none_iff {caps : List (Nat × List Char)} {n : Nat} :
    gcap caps n = none ↔ ∀ p ∈ caps, p.1 ≠ n := by
  simp [gcap, List.find?_eq_none]

/-- Group lookup skips a capture with a different number. -/
theorem gcap_cons_of_ne {a : Nat × List Char} {l : List (Nat × List Char)}
    {n : Nat} (ha : (a.1 == n) = false) : gcap (a :: l) n = gcap l n := by
  simp only [gcap, List.find?]
  rw [ha]

/-- Group lookup returns the first capture with the right number. -/
theorem gcap_cons_of_eq {a : Nat × List Char} {l : List (Nat × List Char)}
    {n : Nat} (ha : (a.1 == n) = true) : gcap (a :: l) n = some a.2 := by
  simp only [gcap, List.find?]
  rw [ha]
  rfl

/-- Group lookup skips a whole capture segment free of the number. -/
theorem gcap_append_skip {k1 k2 : List (Nat × List Char)} {n : Nat}
    (h : ∀ p ∈ k1, p.1 ≠ n) : gcap (k1 ++ k2) n = gcap k2 n := by
  induction k1 with
  | nil => rfl
  | cons a l ih =>
    have ha : (a.1 == n) = false := by
      simpa using h a (List.mem_cons_self a l)
    rw [List.cons_append, gcap_cons_of_ne ha]
    exact ih (fun p hp => h p (List.mem_cons_of_mem a hp))

/-- Group lookup found in the left capture segment is stable under
appending. -/
theorem gcap_append_left {k1 k2 : List (Nat × List Char)} {n : Nat} {c : List Char}
    (h : gcap k1 n = some c) : gcap (k1 ++ k2) n = some c := by
  induction k1 with
  | nil => simp [gcap] at h
  | cons a l ih =>
    by_cases ha : (a.1 == n) = true
    · rw [gcap_cons_of_eq ha] at h
      rw [List.cons_append, gcap_cons_of_eq ha]
      exact h
    · rw [gcap_cons_of_ne (by simpa using ha)] at h
      rw [List.cons_append, gcap_cons_of_ne (by simpa using ha)]
      exact ih h

/-- Any match of the range branch of the time token consumes a literal
`-`. -/
theorem range_dash {inp : List Char} {m : MRes}
    (h : m ∈ mmatch rangeRE inp) : '-' ∈ m.c := by
  unfold rangeRE at h
  obtain ⟨m1, _, m2, h2, rfl⟩ := mem_mmatch_cat h
  obtain ⟨m3, h3, m4, _, rfl⟩ := mem_mmatch_cat h2
  obtain ⟨a, as, _, hp, rfl⟩ := mem_mmatch_chr h3
  have : a = '-' := by simpa using hp
  subst this
  simp

/-- A time-group match without a `duration` capture came from the range
branch, so its `time` capture contains `-`. -/
theorem timeGroup_dash {inp : List Char} {m : MRes}
    (h : m ∈ mmatch timeGroupRE inp) (hdur : gcap m.caps GDUR = none) :
    ∃ c, gcap m.caps GTIME = some c ∧ '-' ∈ c := by
  unfold timeGroupRE at h
  obtain ⟨m0, h0, rfl⟩ := mem_mmatch_group h
  rcases mem_mmatch_alt h0 with hr | hd
  · have hdash := range_dash hr
    have hkeys := mmatch_keys hr
    refine ⟨m0.c, ?_, hdash⟩
    have hskip : ∀ p ∈ m0.caps, p.1 ≠ GTIME := by
      intro p hp
      have h2 : p.1 ∈ RE.keys rangeRE := hkeys p hp
      have h3 : p.1 ∈ [GSTART, GEND] := h2
      simp only [List.mem_cons, List.mem_singleton, List.not_mem_nil] at h3
      rcases h3 with h3 | h3 | h3
      · rw [h3]; decide
      · rw [h3]; decide
      · exact absurd h3 (by simp)
    rw [gcap_append_skip hskip]
    exact gcap_cons_of_eq rfl
  · exfalso
    unfold durRE at hd
    obtain ⟨m1, _, rfl⟩ := mem_mmatch_group hd
    rw [gcap_eq_none_iff] at hdur
    exact hdur (GDUR, m1.c) (by simp) rfl

/-- In a full entry match without a `duration` capture, the `time`
capture contains `-`. -/
theorem entry_caps_dash {inp : List Char} {m : MRes}
    (hm : m ∈ mmatch entryRE inp) (hdur : gcap m.caps GDUR = none) :
    ∃ c, gcap m.caps GTIME = some c ∧ '-' ∈ c := by
  unfold entryRE at hm
  obtain ⟨mF, hF, m1, h1, rfl⟩ := mem_mmatch_cat hm
  obtain ⟨mA, hA, m2, h2, rfl⟩ := mem_mmatch_cat h1
  obtain ⟨mS2, hS2, m3, h3, rfl⟩ := mem_mmatch_cat h2
  obtain ⟨mT, hT, m4, h4, rfl⟩ := mem_mmatch_cat h3
  obtain ⟨mS3, hS3, mD, hD, rfl⟩ := mem_mmatch_cat h4
  have skipF : ∀ p ∈ mF.caps, p.1 ∈ RE.keys flagsOptRE := mmatch_keys hF
  have skipA : ∀ p ∈ mA.caps, p.1 ∈ RE.keys (RE.group GALIAS (.plus isAliasChar true)) :=
    mmatch_keys hA
  have skipS2 : ∀ p ∈ mS2.caps, p.1 ∈ RE.keys (RE.group GSP2 (.plus isPySpace true)) :=
    mmatch_keys hS2
  have skipS3 : ∀ p ∈ mS3.caps, p.1 ∈ RE.keys (RE.group GSP3 (.plus isPySpace true)) :=
    mmatch_keys hS3
  have skipD : ∀ p ∈ mD.caps, p.1 ∈ RE.keys (RE.group GDESC (.plus isNotNL true)) :=
    mmatch_keys hD
  have neF : ∀ (n : Nat), n ≠ GFLAGS → n ≠ GSP1 → ∀ p ∈ mF.caps, p.1 ≠ n := by
    intro n hn1 hn2 p hp
    have h2 : p.1 ∈ [GFLAGS, GSP1] := skipF p hp
    simp only [List.mem_cons, List.mem_singleton, List.not_mem_nil] at h2
    rcases h2 with h2 | h2 | h2
    · rw [h2]; exact fun hx => hn1 hx.symm
    · rw [h2]; exact fun hx => hn2 hx.symm
    · exact absurd h2 (by simp)
  have hA8 : ∀ p ∈ mA.caps, p.1 ≠ GDUR := by
    intro p hp
    have h2 : p.1 ∈ [GALIAS] := skipA p hp
    simp only [List.mem_singleton] at h2
    rw [h2]; decide
  have hS28 : ∀ p ∈ mS2.caps, p.1 ≠ GDUR := by
    intro p hp
    have h2 : p.1 ∈ [GSP2] := skipS2 p hp
    simp only [List.mem_singleton] at h2
    rw [h2]; decide
  have hA5 : ∀ p ∈ mA.caps, p.1 ≠ GTIME := by
    intro p hp
    have h2 : p.1 ∈ [GALIAS] := skipA p hp
    simp only [List.mem_singleton] at h2
    rw [h2]; decide
  have hS25 : ∀ p ∈ mS2.caps, p.1 ≠ GTIME := by
    intro p hp
    have h2 : p.1 ∈ [GSP2] := skipS2 p hp
    simp only [List.mem_singleton] at h2
    rw [h2]; decide
  -- reduce the nested appends for key GDUR
  have skipDur : gcap mT.caps GDUR = none := by
    rw [gcap_append_skip (neF GDUR (by decide) (by decide))] at hdur
    rw [gcap_append_skip hA8] at hdur
    rw [gcap_append_skip hS28] at hdur
    rw [gcap_eq_none_iff] at hdur ⊢
    intro p hp
    exact hdur p (List.mem_append_left _ hp)
  obtain ⟨c, hc, hdash⟩ := timeGroup_dash hT skipDur
  refine ⟨c, ?_, hdash⟩
  rw [gcap_append_skip (neF GTIME (by decide) (by decide))]
  rw [gcap_append_skip hA5]
  rw [gcap_append_skip hS25]
  exact gcap_append_left hc

/-- A successful `entryMatch` comes from a member of the match list. -/
theorem entryMatch_some {inp : List Char} {caps : List (Nat × List Char)}
    (h : entryMatch inp = some caps) :
    ∃ m ∈ mmatch entryRE inp, m.caps = caps := by
  unfold entryMatch fullMatch at h
  cases hf : (mmatch entryRE inp).find? (fun m => m.rest.isEmpty) with
  | none => rw [hf] at h; cases h
  | some m =>
    rw [hf] at h
    refine ⟨m, List.mem_of_find?_eq_some hf, ?_⟩
    injection h

/-- C9: for every entry line whose time-or-duration token contains no
`-`, the parsed duration is the fixed numeric variant, never a range;
in particular `"foo 100 baz"` parses to alias `"foo"` with fixed
duration `100.0`. -/
theorem c9_no_dash_fixed :
    (∀ (s : String) (e : EntryLine), parse_entry_line s = .ok e →
      ('-' ∉ e.t.f4.toList) → e.duration.isFixed = true) ∧
    (parse_entry_line "foo 100 baz").map (fun e => (e.alias, e.duration)) =
      .ok ("foo", .num (.float ⟨100, []⟩)) := by
  constructor
  · intro s e h hdash
    unfold parse_entry_line at h
    split at h
    · exact absurd h (by simp)
    · rename_i caps heq
      split at h
      · exact absurd h (by simp)
      · rename_i st hst
        split at h
        · exact absurd h (by simp)
        · rename_i en hen
          split at h
          · exact absurd h (by simp)
          · rename_i dur hdur
            have hbe := Except.ok.inj h
            subst hbe
            show dur.isFixed = true
            cases hg : gcap caps GDUR with
            | some tok =>
              unfold durationOf at hdur
              rw [hg] at hdur
              have := Option.some.inj hdur
              subst this
              rfl
            | none =>
              exfalso
              obtain ⟨m, hmem, hcaps⟩ := entryMatch_some heq
              subst hcaps
              obtain ⟨c, hc, hdashc⟩ := entry_caps_dash hmem hg
              simp only [hc, Option.getD_some] at hdash
              exact hdash hdashc
  · rfl

/-- C9 (witness): the universal statement applied to
`"foo 100 baz"`. -/
theorem c9_no_dash_fixed_witness :
    ('-' ∉ ("100" : String).toList) ∧
    (⟨"foo", .num (.float ⟨100, []⟩), "baz", ⟨false, false⟩,
      ⟨"", "", "foo", " ", "100", " ", "baz"⟩, noChange⟩ : EntryLine).duration.isFixed
      = true :=
  ⟨by decide, c9_no_dash_fixed.1 "foo 100 baz" _ rfl (by decide)⟩

/-- Helper: `datetime.date` construction succeeds on in-range fields. -/
theorem mkDate_eq_ok (y m d : Nat) (h1 : 1 ≤ y) (h2 : y ≤ 9999) (h3 : 1 ≤ m)
    (h4 : m ≤ 12) (h5 : 1 ≤ d) (h6 : d ≤ daysInMonth y m) :
    mkDate y m d = .ok ⟨y, m, d⟩ := by
  simp [mkDate, h1, h2, h3, h4, h5, h6]

/-- C5: `extract_date` returns the literal calendar date for both
numeric patterns — the day-first pattern maps a 2-digit year to the
current millennium (`currentYear - currentYear % 1000 + YY`) and uses a
4-digit year literally; the year-first pattern uses the 4-digit year
literally — and it raises `ValueError` (not `ParseError`) when no date
pattern matches. -/
theorem c5_extract_date (cy : Nat) (h1 : 2000 ≤ cy) (h2 : cy ≤ 9999) :
    extract_date cy "05/08/12".toList = .ok ⟨cy - cy % 1000 + 12, 8, 5⟩ ∧
    extract_date cy "05/08/2012".toList = .ok ⟨2012, 8, 5⟩ ∧
    extract_date cy "2013/08/09".toList = .ok ⟨2013, 8, 9⟩ ∧
    extract_date cy "foobar".toList =
      .error (.valueError "No date could be extracted from the given value") := by
  refine ⟨?_, rfl, rfl, rfl⟩
  show mkDate (cy - cy % 1000 + 12) 8 5 = _
  exact mkDate_eq_ok _ 8 5 (by omega) (by omega) (by omega) (by omega) (by omega)
    (by norm_num [daysInMonth])

/-- C5 (witness): evaluated with current year 2026, `"05/08/12"` is
2012-08-05 and `"2013/08/09"` is 2013-08-09. -/
theorem c5_extract_date_witness :
    (2000 ≤ 2026 ∧ 2026 ≤ 9999) ∧
    extract_date 2026 "05/08/12".toList = .ok ⟨2012, 8, 5⟩ ∧
    extract_date 2026 "2013/08/09".toList = .ok ⟨2013, 8, 9⟩ :=
  ⟨⟨by decide, by decide⟩,
   ((c5_extract_date 2026 (by decide) (by decide)).1).trans rfl,
   (c5_extract_date 2026 (by decide) (by decide)).2.2.1⟩

/-- The splitlines worker never returns an empty list of lines. -/
theorem splitlinesGo_ne_nil (acc t) : splitlinesGo acc t ≠ [] := by
  induction acc, t using splitlinesGo.induct with
  | case1 acc => simp [splitlinesGo.eq_1]
  | case2 acc rest ih =>
    cases rest with
    | nil => simp [splitlinesGo.eq_2]
    | cons h tl => simp [splitlinesGo.eq_3]
  | case3 acc c rest hpat hb ih =>
    cases rest with
    | nil => rw [splitlinesGo.eq_4 acc c hpat, if_pos hb]; simp
    | cons h tl => rw [splitlinesGo.eq_5 acc c h tl hpat, if_pos hb]; simp
  | case4 acc c rest hpat hb ih =>
    cases rest with
    | nil => rw [splitlinesGo.eq_4 acc c hpat, if_neg hb]; exact ih
    | cons h tl => rw [splitlinesGo.eq_5 acc c h tl hpat, if_neg hb]; exact ih

/-- The first line produced by the splitlines worker starts with the
pending accumulator. -/
theorem splitlinesGo_first (acc t) :
    ∃ u rest, splitlinesGo acc t = (acc.reverse ++ u) :: rest := by
  induction acc, t using splitlinesGo.induct with
  | case1 acc => exact ⟨[], [], by simp [splitlinesGo.eq_1]⟩
  | case2 acc rest ih =>
    cases rest with
    | nil => exact ⟨[], [], by simp [splitlinesGo.eq_2]⟩
    | cons h tl =>
      exact ⟨[], splitlinesGo [] (h :: tl), by rw [splitlinesGo.eq_3]; simp⟩
  | case3 acc c rest hpat hb ih =>
    cases rest with
    | nil =>
      exact ⟨[], [], by rw [splitlinesGo.eq_4 acc c hpat, if_pos hb]; simp⟩
    | cons h tl =>
      exact ⟨[], splitlinesGo [] (h :: tl),
        by rw [splitlinesGo.eq_5 acc c h tl hpat, if_pos hb]; simp⟩
  | case4 acc c rest hpat hb ih =>
    cases rest with
    | nil =>
      obtain ⟨u, r, hu⟩ := ih
      refine ⟨c :: u, r, ?_⟩
      rw [splitlinesGo.eq_4 acc c hpat, if_neg hb, hu]
      simp
    | cons h tl =>
      obtain ⟨u, r, hu⟩ := ih
      refine ⟨c :: u, r, ?_⟩
      rw [splitlinesGo.eq_5 acc c h tl hpat, if_neg hb, hu]
      simp

/-- `getLast?` ignores a cons onto a nonempty list. -/
theorem getLast?_cons_ne {α : Type} (a : α) {l : List α} (h : l ≠ []) :
    (a :: l).getLast? = l.getLast? := by
  cases l with
  | nil => exact absurd rfl h
  | cons b t => exact List.getLast?_cons_cons

/-- When the input ends with a non-boundary character, the last line
produced by the splitlines worker ends with that character. -/
theorem splitlinesGo_getLast (acc t c) (hc : t.getLast? = some c)
    (hb : isLineBoundary c = false) :
    ∃ u, (splitlinesGo acc t).getLast? = some (u ++ [c]) := by
  induction acc, t using splitlinesGo.induct with
  | case1 acc => simp at hc
  | case2 acc rest ih =>
    cases rest with
    | nil =>
      simp [List.getLast?_cons_cons] at hc
      subst hc
      simp [isLineBoundary] at hb
    | cons h tl =>
      rw [List.getLast?_cons_cons, List.getLast?_cons_cons] at hc
      obtain ⟨u, hu⟩ := ih hc
      refine ⟨u, ?_⟩
      rw [splitlinesGo.eq_3]
      rw [getLast?_cons_ne _ (splitlinesGo_ne_nil [] (h :: tl))]
      exact hu
  | case3 acc c2 rest hpat hb2 ih =>
    cases rest with
    | nil =>
      simp at hc
      subst hc
      rw [hb] at hb2
      cases hb2
    | cons h tl =>
      rw [List.getLast?_cons_cons] at hc
      obtain ⟨u, hu⟩ := ih hc
      refine ⟨u, ?_⟩
      rw [splitlinesGo.eq_5 acc c2 h tl hpat, if_pos hb2]
      rw [getLast?_cons_ne _ (splitlinesGo_ne_nil [] (h :: tl))]
      exact hu
  | case4 acc c2 rest hpat hb2 ih =>
    cases rest with
    | nil =>
      simp at hc
      subst hc
      refine ⟨acc.reverse, ?_⟩
      rw [splitlinesGo.eq_4 acc c2 hpat, if_neg hb2, splitlinesGo.eq_1]
      simp
    | cons h tl =>
      rw [List.getLast?_cons_cons] at hc
      obtain ⟨u, hu⟩ := ih hc
      refine ⟨u, ?_⟩
      rw [splitlinesGo.eq_5 acc c2 h tl hpat, if_neg hb2]
      exact hu

/-- An element not satisfying the predicate survives `dropWhile`. -/
theorem mem_dropWhile {p : Char → Bool} {l : List Char} {c : Char}
    (hc : c ∈ l) (h : p c = false) : c ∈ l.dropWhile p := by
  induction l with
  | nil => simp at hc
  | cons a t ih =>
    rw [List.dropWhile_cons]
    by_cases hp : p a
    · rw [if_pos hp]
      rcases List.mem_cons.mp hc with rfl | hc2
      · rw [h] at hp; cases hp
      · exact ih hc2
    · rw [if_neg hp]
      exact hc

/-- A list containing a non-whitespace character does not strip to
empty. -/
theorem pyStrip_ne_nil_of_mem {l : List Char} {c : Char} (hc : c ∈ l)
    (h : isPySpace c = false) : pyStrip l ≠ [] := by
  unfold pyStrip
  intro hx
  rw [List.reverse_eq_nil_iff, List.dropWhile_eq_nil_iff] at hx
  have h1 : c ∈ (l.dropWhile isPySpace).reverse :=
    List.mem_reverse.mpr (mem_dropWhile hc h)
  rw [hx c h1] at h
  cases h

/-- The first element surviving `dropWhile` fails the predicate. -/
theorem dropWhile_head?_false {p : Char → Bool} {l : List Char} {c : Char}
    (h : (l.dropWhile p).head? = some c) : p c = false := by
  induction l with
  | nil => simp at h
  | cons a t ih =>
    rw [List.dropWhile_cons] at h
    by_cases hp : p a
    · rw [if_pos hp] at h; exact ih h
    · rw [if_neg hp] at h
      simp only [List.head?_cons, Option.some.injEq] at h
      subst h
      simpa using hp

/-- A nonempty suffix has the same last element as the whole list. -/
theorem getLast?_of_suffix {α : Type} {l1 l2 : List α} (h : l1 <:+ l2)
    (hne : l1 ≠ []) : l2.getLast? = l1.getLast? := by
  obtain ⟨pre, rfl⟩ := h
  induction pre with
  | nil => rfl
  | cons a t ih =>
    rw [List.cons_append, getLast?_cons_ne _ (by simp [hne])]
    exact ih

/-- A stripped string never starts with whitespace. -/
theorem pyStrip_head {l : List Char} {c : Char}
    (h : (pyStrip l).head? = some c) : isPySpace c = false := by
  unfold pyStrip at h
  rw [List.head?_reverse] at h
  have hne : l.dropWhile isPySpace ≠ [] := by
    intro hx
    rw [hx] at h
    simp at h
  have hX : (l.dropWhile isPySpace).reverse.dropWhile isPySpace ≠ [] := by
    intro hx
    rw [hx] at h
    simp at h
  have h2 := (getLast?_of_suffix (List.dropWhile_suffix _) hX).trans h
  rw [List.getLast?_reverse] at h2
  exact dropWhile_head?_false h2

/-- A stripped string never ends with whitespace. -/
theorem pyStrip_last {l : List Char} {c : Char}
    (h : (pyStrip l).getLast? = some c) : isPySpace c = false := by
  unfold pyStrip at h
  rw [List.getLast?_reverse] at h
  exact dropWhile_head?_false h

/-- Every line-boundary character is whitespace. -/
theorem boundary_space {c : Char} (h : isLineBoundary c = true) :
    isPySpace c = true := by
  simp only [isLineBoundary, Bool.or_eq_true, beq_iff_eq] at h
  rcases h with ((rfl | rfl) | rfl) | rfl <;> rfl

/-- Tab expansion of a nonempty string is nonempty. -/
theorem tabExpand_ne_nil {l : List Char} (h : l ≠ []) : tabExpand l ≠ [] := by
  cases l with
  | nil => exact absurd rfl h
  | cons a t =>
    unfold tabExpand
    rw [List.flatMap_cons]
    intro hx
    rcases List.append_eq_nil.mp hx with ⟨h1, -⟩
    by_cases ha : a == '\t'
    · rw [if_pos ha] at h1; cases h1
    · rw [if_neg ha] at h1; cases h1

/-- A whitespace-only string strips to empty. -/
theorem pyStrip_nil_of_all {l : List Char} (h : l.all isPySpace = true) :
    pyStrip l = [] := by
  unfold pyStrip
  have h1 : l.dropWhile isPySpace = [] := by
    rw [List.dropWhile_eq_nil_iff]
    intro x hx
    exact List.all_eq_true.mp h x hx
  rw [h1]
  rfl

/-- One successful parser step: the output starts with the first line's
result, the rest comes from a recursive run, and a blank result means
the cleaned line was empty. -/
theorem parserGo_ok_cons {cy : Nat} {cur : Option PyDate} {n : Nat} {raw : String}
    {rest : List String} {out : List Line}
    (h : parserGo cy cur n (raw :: rest) = .ok out) :
    ∃ r out2 cur2, out = r :: out2 ∧ parserGo cy cur2 (n + 1) rest = .ok out2 ∧
      (r.isBlank = true → cleanLine raw = "") := by
  unfold parserGo at h
  split at h
  · cases hrec : parserGo cy cur (n + 1) rest with
    | error e => rw [hrec] at h; cases h
    | ok out2 =>
      rw [hrec] at h
      simp only [Except.map] at h
      refine ⟨Line.text (cleanLine raw), out2, cur, (Except.ok.inj h).symm, hrec, ?_⟩
      intro hb
      simp only [Line.isBlank] at hb
      exact (String.isEmpty_iff _).mp hb
  · split at h
    · rename_i d hd
      cases hrec : parserGo cy (some d) (n + 1) rest with
      | error e => rw [hrec] at h; cases h
      | ok out2 =>
        rw [hrec] at h
        simp only [Except.map] at h
        refine ⟨Line.date d (cleanLine raw), out2, some d, (Except.ok.inj h).symm,
          hrec, ?_⟩
        intro hb
        simp [Line.isBlank] at hb
    · split at h
      · cases h
      · split at h
        · rename_i e he
          cases hrec : parserGo cy cur (n + 1) rest with
          | error e2 => rw [hrec] at h; cases h
          | ok out2 =>
            rw [hrec] at h
            simp only [Except.map] at h
            refine ⟨Line.entry e, out2, cur, (Except.ok.inj h).symm, hrec, ?_⟩
            intro hb
            simp [Line.isBlank] at hb
        · cases h
        · cases h

/-- A blank line at the end of a successful parser run comes from a raw
line whose cleaned text is empty. -/
theorem parserGo_getLast (ls : List String) :
    ∀ (cy : Nat) (cur : Option PyDate) (n : Nat) (out : List Line)
      (h : parserGo cy cur n ls = .ok out) (l : Line),
      out.getLast? = some l → l.isBlank = true →
      ∃ raw, ls.getLast? = some raw ∧ cleanLine raw = "" := by
  induction ls with
  | nil =>
    intro cy cur n out h l hl hb
    have : out = [] := (Except.ok.inj h).symm
    subst this
    simp at hl
  | cons raw rest ih =>
    intro cy cur n out h l hl hb
    obtain ⟨r, out2, cur2, rfl, hrec, hblank⟩ := parserGo_ok_cons h
    cases rest with
    | nil =>
      have : out2 = [] := (Except.ok.inj hrec).symm
      subst this
      simp only [List.getLast?_singleton, Option.some.injEq] at hl
      subst hl
      exact ⟨raw, rfl, hblank hb⟩
    | cons raw2 rest2 =>
      obtain ⟨r2, out3, cur3, rfl, -, -⟩ := parserGo_ok_cons hrec
      rw [getLast?_cons_ne _ (by simp)] at hl
      obtain ⟨rawx, hrawx, hclean⟩ := ih cy cur2 (n + 1) _ hrec l hl hb
      exact ⟨rawx, by rw [getLast?_cons_ne _ (by simp), hrawx], hclean⟩

/-- A string starting with a non-boundary character splits into lines
the first of which starts with that character. -/
theorem splitlines_head {c : Char} (t : List Char)
    (hcb : isLineBoundary c = false) :
    ∃ u rest, pySplitlines (c :: t) = (c :: u) :: rest := by
  have hpat : ∀ (r : List Char), c = '\r' → t = '\n' :: r → False := by
    intro r hc ht
    rw [hc] at hcb
    simp [isLineBoundary] at hcb
  cases t with
  | nil =>
    refine ⟨[], [], ?_⟩
    show splitlinesGo [] [c] = _
    rw [splitlinesGo.eq_4 [] c hpat, if_neg (by simp [hcb]), splitlinesGo.eq_1]
    simp
  | cons h tl =>
    obtain ⟨u, r, hu⟩ := splitlinesGo_first [c] (h :: tl)
    refine ⟨u, r, ?_⟩
    show splitlinesGo [] (c :: h :: tl) = _
    rw [splitlinesGo.eq_5 [] c h tl hpat, if_neg (by simp [hcb]), hu]
    simp

/-- A string ending with a non-boundary character splits into lines the
last of which ends with that character. -/
theorem splitlines_getLast {s : List Char} {cl : Char} (hs : s.getLast? = some cl)
    (hcb : isLineBoundary cl = false) :
    ∃ u, (pySplitlines s).getLast? = some (u ++ [cl]) := by
  cases s with
  | nil => simp at hs
  | cons a t =>
    show ∃ u, (splitlinesGo [] (a :: t)).getLast? = _
    exact splitlinesGo_getLast [] (a :: t) cl hs hcb

/-- C10: `parse` strips the whole input before splitting, so a
whitespace-only input parses to the empty sequence, and the first and
last parsed lines of any successfully parsed input are never blank
(while interior blank lines are preserved, as in
`"1.1.2013\n\nfoo 2 bar"`). -/
theorem c10_whole_strip :
    (∀ (cy : Nat) (text : String), text.toList.all isPySpace = true →
      parse cy text = .ok []) ∧
    (∀ (cy : Nat) (text : String) (out : List Line) (l : Line),
      parse cy text = .ok out → (out.head? = some l ∨ out.getLast? = some l) →
      l.isBlank = false) ∧
    (parse 2026 "1.1.2013\n\nfoo 2 bar").map (fun ls => ls.map Line.isBlank) =
      .ok [false, true, false] := by
  refine ⟨?_, ?_, rfl⟩
  · intro cy text h
    unfold parse
    rw [pyStrip_nil_of_all h]
    rfl
  · intro cy text out l h hl
    cases hbl : l.isBlank with
    | false => rfl
    | true =>
      exfalso
      unfold parse at h
      cases hs : pyStrip text.toList with
      | nil =>
        rw [hs] at h
        have hout : out = [] := (Except.ok.inj h).symm
        subst hout
        rcases hl with hl | hl <;> simp at hl
      | cons c t =>
        rw [hs] at h
        have hcs : isPySpace c = false := pyStrip_head (by rw [hs]; rfl)
        rcases hl with hl | hl
        · have hcb : isLineBoundary c = false := by
            cases hx : isLineBoundary c
            · rfl
            · rw [boundary_space hx] at hcs; cases hcs
          obtain ⟨u, rest2, hsp⟩ := splitlines_head t hcb
          rw [hsp, List.map_cons] at h
          obtain ⟨r, out2, cur2, rfl, -, hblank⟩ := parserGo_ok_cons h
          simp only [List.head?_cons, Option.some.injEq] at hl
          subst hl
          have hclean := hblank hbl
          unfold cleanLine at hclean
          have hnil : tabExpand (pyStrip (String.mk (c :: u)).toList) = [] := by
            simpa [String.ext_iff] using hclean
          exact tabExpand_ne_nil
            (pyStrip_ne_nil_of_mem (l := (String.mk (c :: u)).toList) (c := c)
              (by simp) hcs) hnil
        · obtain ⟨cl, hcl⟩ : ∃ cl, (c :: t).getLast? = some cl :=
            ⟨(c :: t).getLast (by simp), List.getLast?_eq_getLast _ _⟩
          have hcls : isPySpace cl = false := pyStrip_last (by rw [hs]; exact hcl)
          have hclb : isLineBoundary cl = false := by
            cases hx : isLineBoundary cl
            · rfl
            · rw [boundary_space hx] at hcls; cases hcls
          obtain ⟨u, hu⟩ := splitlines_getLast hcl hclb
          obtain ⟨raw, hraw, hcleanraw⟩ :=
            parserGo_getLast _ cy none 1 out h l hl hbl
          rw [List.getLast?_map, hu] at hraw
          simp only [Option.map_some', Option.some.injEq] at hraw
          subst hraw
          unfold cleanLine at hcleanraw
          have hnil : tabExpand (pyStrip (String.mk (u ++ [cl])).toList) = [] := by
            simpa [String.ext_iff] using hcleanraw
          exact tabExpand_ne_nil
            (pyStrip_ne_nil_of_mem (l := (String.mk (u ++ [cl])).toList) (c := cl)
              (by simp) hcls) hnil

/-- C10 (witness): the statement evaluated on a whitespace-only input
and on a one-line timesheet. -/
theorem c10_whole_strip_witness :
    ("  \n \n" : String).toList.all isPySpace = true ∧
    parse 2026 "  \n \n" = .ok [] ∧
    (Line.date ⟨2013, 1, 1⟩ "1.1.2013").isBlank = false :=
  ⟨by decide, c10_whole_strip.1 2026 "  \n \n" (by decide),
   c10_whole_strip.2.1 2026 "1.1.2013" [Line.date ⟨2013, 1, 1⟩ "1.1.2013"]
     (Line.date ⟨2013, 1, 1⟩ "1.1.2013") rfl (Or.inl rfl)⟩

/-- `datetime.time` construction only fails with `ValueError`. -/
theorem mkTime_error {h m : Nat} {e : PyErr} (hx : mkTime h m = .error e) :
    ∃ s, e = .valueError s := by
  unfold mkTime at hx
  split at hx
  · exact ⟨_, (Except.error.inj hx).symm⟩
  · split at hx
    · exact ⟨_, (Except.error.inj hx).symm⟩
    · cases hx

/-- `parse_time` only fails with `ValueError`. -/
theorem parse_time_error_valueError {s : List Char} {e : PyErr}
    (h : parse_time s = .error e) : ∃ m, e = .valueError m := by
  unfold parse_time at h
  split at h
  · exact mkTime_error h
  · exact ⟨_, (Except.error.inj h).symm⟩

/-- When the combined entry pattern does not match, `parse_entry_line`
raises `ParseError` with the alias/duration/description message. -/
theorem pel_of_no_match {line : String}
    (h : entryMatch line.toList = none) :
    parse_entry_line line = .error (.parseError msgEntryPattern none none) := by
  unfold parse_entry_line
  rw [h]

/-- An invalid start time makes the start-time step raise the translated
`ParseError`. -/
theorem startTimeOf_of_startBad {caps : List (Nat × List Char)}
    (hb : startBad caps = true) :
    startTimeOf caps = .error (.parseError msgDurationFormat none none) := by
  unfold startBad at hb
  cases hg : gcap caps GSTART with
  | none => rw [hg] at hb; cases hb
  | some s =>
    rw [hg] at hb
    simp only [Bool.and_eq_true, Bool.not_eq_true'] at hb
    obtain ⟨hne, hbad⟩ := hb
    unfold startTimeOf
    rw [hg]
    dsimp only
    rw [if_neg (by simp [hne])]
    cases hpt : parse_time s with
    | ok t => rw [hpt] at hbad; cases hbad
    | error e => rfl

/-- A matched line with an invalid start time makes `parse_entry_line`
raise `ParseError` with the duration-format message. -/
theorem pel_of_startBad {line : String} {caps : List (Nat × List Char)}
    (hm : entryMatch line.toList = some caps) (hb : startBad caps = true) :
    parse_entry_line line = .error (.parseError msgDurationFormat none none) := by
  unfold parse_entry_line
  rw [hm]
  dsimp only
  rw [startTimeOf_of_startBad hb]

/-- The start-time step only fails with the translated duration-format
`ParseError`, and only when the start group is present, nonempty and
rejected by `parse_time`. -/
theorem startTimeOf_error_cases {caps : List (Nat × List Char)} {e : PyErr}
    (h : startTimeOf caps = .error e) :
    e = .parseError msgDurationFormat none none ∧ startBad caps = true := by
  unfold startTimeOf at h
  split at h
  · cases h
  · rename_i s hg
    split at h
    · cases h
    · rename_i hne
      split at h
      · cases h
      · rename_i e2 hpt
        refine ⟨(Except.error.inj h).symm, ?_⟩
        unfold startBad
        rw [hg]
        simp only [Bool.and_eq_true, Bool.not_eq_true']
        exact ⟨by simpa using hne, by rw [hpt]; rfl⟩

/-- The end-time step only fails with an untranslated `ValueError`. -/
theorem endTimeOf_error_valueError {caps : List (Nat × List Char)} {e : PyErr}
    (h : endTimeOf caps = .error e) : ∃ m, e = .valueError m := by
  unfold endTimeOf at h
  split at h
  · cases h
  · rename_i s hg
    split at h
    · cases h
    · cases hpt : parse_time s with
      | ok t => rw [hpt] at h; cases h
      | error e2 =>
        rw [hpt] at h
        simp only [Except.map] at h
        obtain rfl := (Except.error.inj h).symm
        exact parse_time_error_valueError hpt

/-- The only `ParseError`s `parse_entry_line` can raise: pattern
mismatch (entry-pattern message) or invalid start time (duration-format
message), both without line context. -/
theorem pel_parseError_cases {line : String} {m : String} {a : Option Nat}
    {b : Option String}
    (h : parse_entry_line line = .error (.parseError m a b)) :
    a = none ∧ b = none ∧
      ((entryMatch line.toList = none ∧ m = msgEntryPattern) ∨
       (∃ caps, entryMatch line.toList = some caps ∧ startBad caps = true ∧
         m = msgDurationFormat)) := by
  unfold parse_entry_line at h
  split at h
  · rename_i hm
    have h2 := Except.error.inj h
    injection h2 with h1 h2 h3
    exact ⟨h2.symm, h3.symm, Or.inl ⟨hm, h1.symm⟩⟩
  · rename_i caps hm
    split at h
    · rename_i e he
      obtain ⟨he2, hbad⟩ := startTimeOf_error_cases he
      subst he2
      have h2 := Except.error.inj h
      injection h2 with h1 h2 h3
      exact ⟨h2.symm, h3.symm, Or.inr ⟨caps, hm, hbad, h1.symm⟩⟩
    · rename_i st hst
      split at h
      · rename_i e he
        obtain ⟨m2, rfl⟩ := endTimeOf_error_valueError he
        cases Except.error.inj h
      · rename_i en hen
        split at h
        · cases Except.error.inj h
        · cases h

/-- A line the parser passes satisfies no failure clause. -/
theorem lineOkB_not_fail {cy : Nat} {cur : Option PyDate} {raw : String}
    {msg : String} (hok : lineOkB cy cur raw = true) :
    ¬ failClause cy cur raw msg := by
  rintro ⟨hb, hex, hcase⟩
  unfold lineOkB at hok
  rw [hb, hex] at hok
  simp only [Bool.false_or, Bool.and_eq_true] at hok
  obtain ⟨hcur, hpel⟩ := hok
  rcases hcase with ⟨hnone, -⟩ | ⟨-, hnom, -⟩ | ⟨-, caps, hcaps, hbad, -⟩
  · rw [hnone] at hcur; cases hcur
  · rw [pel_of_no_match hnom] at hpel; cases hpel
  · rw [pel_of_startBad hcaps hbad] at hpel; cases hpel

/-- `Except.map` preserves and reflects errors. -/
theorem map_error_iff {α β γ : Type} (x : Except α β) (f : β → γ) (e : α) :
    x.map f = .error e ↔ x = .error e := by
  cases x <;> simp [Except.map]

/-- Skipping a passing first line shifts the first-failure
characterization to the remaining lines, with the date section updated
by that line. -/
theorem firstFailAt_cons_shift {cy : Nat} {cur : Option PyDate} {n0 : Nat}
    {raw : String} {rest : List String} {msg : String} {n : Option Nat}
    {ln : Option String} (hok : lineOkB cy cur raw = true) :
    firstFailAt cy cur n0 (raw :: rest) msg n ln ↔
    firstFailAt cy (stepDate cy cur raw) (n0 + 1) rest msg n ln := by
  unfold firstFailAt
  constructor
  · rintro ⟨k, raw2, hk, hn, hln, hpre, hfail⟩
    cases k with
    | zero =>
      simp only [List.getElem?_cons_zero, Option.some.injEq] at hk
      subst hk
      exact absurd hfail (lineOkB_not_fail hok)
    | succ k2 =>
      refine ⟨k2, raw2, by simpa using hk,
        by rw [hn]; simp only [Option.some.injEq]; omega, hln, ?_, ?_⟩
      · intro j hj raw3 hj3
        have h2 := hpre (j + 1) (by omega) raw3 (by simpa using hj3)
        simpa [List.take_succ_cons, openAfter, List.foldl_cons] using h2
      · simpa [List.take_succ_cons, openAfter, List.foldl_cons] using hfail
  · rintro ⟨k, raw2, hk, hn, hln, hpre, hfail⟩
    refine ⟨k + 1, raw2, by simpa using hk,
      by rw [hn]; simp only [Option.some.injEq]; omega, hln, ?_, ?_⟩
    · intro j hj raw3 hj3
      cases j with
      | zero =>
        simp only [List.getElem?_cons_zero, Option.some.injEq] at hj3
        subst hj3
        simpa [openAfter] using hok
      | succ j2 =>
        have h2 := hpre j2 (by omega) raw3 (by simpa using hj3)
        simpa [List.take_succ_cons, openAfter, List.foldl_cons] using h2
    · simpa [List.take_succ_cons, openAfter, List.foldl_cons] using hfail

/-- The line machine aborts with a `ParseError` carrying `(msg, n, ln)`
exactly when some line is the first to fail with one of the three
failure clauses for `msg`, with `n` its line number and `ln` its cleaned
text. -/
theorem parserGo_parseError_iff (ls : List String) :
    ∀ (cy : Nat) (cur : Option PyDate) (n0 : Nat) (msg : String) (n : Option Nat)
      (ln : Option String),
      parserGo cy cur n0 ls = .error (.parseError msg n ln) ↔
      firstFailAt cy cur n0 ls msg n ln := by
  induction ls with
  | nil =>
    intro cy cur n0 msg n ln
    constructor
    · intro h; simp [parserGo] at h
    · rintro ⟨k, raw, hk, -⟩; simp at hk
  | cons raw rest ih =>
    intro cy cur n0 msg n ln
    by_cases hbc : blankOrComment (cleanLine raw) = true
    · have hsd : stepDate cy cur raw = cur := by
        unfold stepDate; rw [if_pos hbc]
      have hokl : lineOkB cy cur raw = true := by
        unfold lineOkB; rw [hbc]; rfl
      rw [firstFailAt_cons_shift hokl, hsd]
      simp only [parserGo]
      rw [if_pos hbc, map_error_iff]
      exact ih cy cur (n0 + 1) msg n ln
    · have hbcf : blankOrComment (cleanLine raw) = false := by
        cases hx : blankOrComment (cleanLine raw)
        · rfl
        · exact absurd hx hbc
      cases hext : extract_date cy (cleanLine raw).toList with
      | ok d =>
        have hsd : stepDate cy cur raw = some d := by
          unfold stepDate; rw [if_neg hbc, hext]
        have hokl : lineOkB cy cur raw = true := by
          unfold lineOkB; rw [hext]; simp [isOkE]
        rw [firstFailAt_cons_shift hokl, hsd]
        simp only [parserGo]
        rw [if_neg hbc, hext]
        rw [map_error_iff]
        exact ih cy (some d) (n0 + 1) msg n ln
      | error he =>
        have hexf : isOkE (extract_date cy (cleanLine raw).toList) = false := by
          rw [hext]; rfl
        cases hcur : cur with
        | none =>
          subst hcur
          simp only [parserGo]
          rw [if_neg hbc, hext]
          simp only [Option.isNone_none, if_true]
          constructor
          · intro h
            have h2 := Except.error.inj h
            injection h2 with h1 h2 h3
            refine ⟨0, raw, by simp, by rw [← h2]; simp, h3.symm,
              by intro j hj; exact absurd hj (by omega), ?_⟩
            exact ⟨hbcf, hexf, Or.inl ⟨by simp [openAfter], h1.symm⟩⟩
          · rintro ⟨k, raw2, hk, hn, hln, hpre, hfail⟩
            cases k with
            | zero =>
              simp only [List.getElem?_cons_zero, Option.some.injEq] at hk
              subst hk
              obtain ⟨-, -, hcase⟩ := hfail
              rcases hcase with ⟨-, hmsg⟩ | ⟨hsome, -, -⟩ | ⟨hsome, -⟩
              · subst hmsg
                rw [hn, hln]
                simp
              · simp [openAfter] at hsome
              · simp [openAfter] at hsome
            | succ k2 =>
              exfalso
              have h0 := hpre 0 (by omega) raw (by simp)
              simp only [List.take_zero] at h0
              unfold lineOkB at h0
              rw [hbcf, hexf] at h0
              simp only [openAfter, List.foldl_nil, Option.isSome_none,
                Bool.false_and, Bool.or_false, Bool.false_or] at h0
              cases h0
        | some d =>
          subst hcur
          cases hpel : parse_entry_line (cleanLine raw) with
          | ok e =>
            have hsd : stepDate cy (some d) raw = some d := by
              unfold stepDate; rw [if_neg hbc, hext]
            have hokl : lineOkB cy (some d) raw = true := by
              unfold lineOkB
              rw [hbcf, hexf, hpel]
              rfl
            rw [firstFailAt_cons_shift hokl, hsd]
            simp only [parserGo]
            rw [if_neg hbc, hext]
            simp only [Option.isNone_some, Bool.false_eq_true, if_false]
            rw [hpel, map_error_iff]
            exact ih cy (some d) (n0 + 1) msg n ln
          | error pe =>
            have hnotok : lineOkB cy (some d) raw = false := by
              unfold lineOkB
              rw [hbcf, hexf, hpel]
              rfl
            cases pe with
            | parseError m a b =>
              have hstep : parserGo cy (some d) n0 (raw :: rest) =
                  .error (.parseError m (some n0) (some (cleanLine raw))) := by
                rw [parserGo.eq_2, if_neg hbc, hext]
                dsimp only
                rw [if_neg (by simp), hpel]
              rw [hstep]
              obtain ⟨rfl, rfl, hdis⟩ := pel_parseError_cases hpel
              constructor
              · intro h
                have h2 := Except.error.inj h
                injection h2 with h1 h2 h3
                refine ⟨0, raw, by simp, by rw [← h2]; simp, h3.symm,
                  by intro j hj; exact absurd hj (by omega), ?_⟩
                refine ⟨hbcf, hexf, ?_⟩
                rcases hdis with ⟨hnom, rfl⟩ | ⟨caps, hcaps, hbad, rfl⟩
                · exact Or.inr (Or.inl ⟨by simp [openAfter], hnom, h1.symm⟩)
                · exact Or.inr (Or.inr ⟨by simp [openAfter], caps, hcaps,
                    hbad, h1.symm⟩)
              · rintro ⟨k, raw2, hk, hn, hln, hpre, hfail⟩
                cases k with
                | zero =>
                  simp only [List.getElem?_cons_zero, Option.some.injEq] at hk
                  subst hk
                  obtain ⟨-, -, hcase⟩ := hfail
                  rcases hcase with ⟨hnone, -⟩ | ⟨-, hnom, hmsg⟩ |
                    ⟨-, caps, hcaps, hbad, hmsg⟩
                  · simp [openAfter] at hnone
                  · subst hmsg
                    rw [pel_of_no_match hnom] at hpel
                    have h5 := Except.error.inj hpel
                    injection h5 with hm1 hm2 hm3
                    rw [hn, hln, hm1]
                    simp
                  · subst hmsg
                    rw [pel_of_startBad hcaps hbad] at hpel
                    have h5 := Except.error.inj hpel
                    injection h5 with hm1 hm2 hm3
                    rw [hn, hln, hm1]
                    simp
                | succ k2 =>
                  exfalso
                  have h0 := hpre 0 (by omega) raw (by simp)
                  simp only [List.take_zero] at h0
                  rw [show openAfter cy (some d) [] = some d from rfl] at h0
                  rw [hnotok] at h0
                  cases h0
            | valueError m2 =>
              have hstep : parserGo cy (some d) n0 (raw :: rest) =
                  .error (.valueError m2) := by
                rw [parserGo.eq_2, if_neg hbc, hext]
                dsimp only
                rw [if_neg (by simp), hpel]
              rw [hstep]
              constructor
              · intro h
                exact absurd (Except.error.inj h) (by simp)
              · rintro ⟨k, raw2, hk, hn, hln, hpre, hfail⟩
                exfalso
                cases k with
                | zero =>
                  simp only [List.getElem?_cons_zero, Option.some.injEq] at hk
                  subst hk
                  obtain ⟨-, -, hcase⟩ := hfail
                  rcases hcase with ⟨hnone, -⟩ | ⟨-, hnom, -⟩ |
                    ⟨-, caps, hcaps, hbad, -⟩
                  · simp [openAfter] at hnone
                  · rw [pel_of_no_match hnom] at hpel
                    cases Except.error.inj hpel
                  · rw [pel_of_startBad hcaps hbad] at hpel
                    cases Except.error.inj hpel
                | succ k2 =>
                  have h0 := hpre 0 (by omega) raw (by simp)
                  simp only [List.take_zero] at h0
                  rw [show openAfter cy (some d) [] = some d from rfl] at h0
                  rw [hnotok] at h0
                  cases h0
            | unboundLocal =>
              have hstep : parserGo cy (some d) n0 (raw :: rest) =
                  .error .unboundLocal := by
                rw [parserGo.eq_2, if_neg hbc, hext]
                dsimp only
                rw [if_neg (by simp), hpel]
              rw [hstep]
              constructor
              · intro h
                exact absurd (Except.error.inj h) (by simp)
              · rintro ⟨k, raw2, hk, hn, hln, hpre, hfail⟩
                exfalso
                cases k with
                | zero =>
                  simp only [List.getElem?_cons_zero, Option.some.injEq] at hk
                  subst hk
                  obtain ⟨-, -, hcase⟩ := hfail
                  rcases hcase with ⟨hnone, -⟩ | ⟨-, hnom, -⟩ |
                    ⟨-, caps, hcaps, hbad, -⟩
                  · simp [openAfter] at hnone
                  · rw [pel_of_no_match hnom] at hpel
                    cases Except.error.inj hpel
                  · rw [pel_of_startBad hcaps hbad] at hpel
                    cases Except.error.inj hpel
                | succ k2 =>
                  have h0 := hpre 0 (by omega) raw (by simp)
                  simp only [List.take_zero] at h0
                  rw [show openAfter cy (some d) [] = some d from rfl] at h0
                  rw [hnotok] at h0
                  cases h0

/-- C3 (counterexample): on `"1.1.2013\nfoo 99:99-? bar"` the parse
raises `ParseError("Duration must be in format hh:mm or hhmm")` at
line 2 although that line DOES match the combined entry pattern and a
date section is open — so the ParseError conditions are not exhausted by
clause (a) (no open section) and clause (b) (pattern mismatch) as the
claim states. -/
theorem c3_first_error_counterexample :
    parse 2026 "1.1.2013\nfoo 99:99-? bar" =
      .error (.parseError msgDurationFormat (some 2) (some "foo 99:99-? bar")) ∧
    (entryMatch "foo 99:99-? bar".toList).isSome = true ∧
    (openAfter 2026 none ["1.1.2013"]).isSome = true ∧
    msgDurationFormat ≠ msgDateSection ∧ msgDurationFormat ≠ msgEntryPattern :=
  ⟨rfl, rfl, rfl, by decide, by decide⟩

/-- C3 (amended): `parse` raises `ParseError` with message `msg`, line
number `n` and line text `ln` exactly when some line (1-based index
`1 + k`) is the FIRST line to fail — every earlier line passes given the
date section its prefix opens — and that line is non-blank, non-comment,
fails date extraction, and satisfies (a) no open date section (message
"Entries must be defined inside a date section"), or (b) the combined
entry pattern does not match (message "Line must have an alias, a
duration and a description"), or (c) the pattern matches but the start
time is invalid (message "Duration must be in format hh:mm or hhmm");
the error carries that line's 1-based number and stripped,
tab-expanded text, and parsing stops there.  (An invalid END time
instead escapes as an untranslated `ValueError`, so no `ParseError` is
raised for it.) -/
theorem c3_first_error (cy : Nat) (text : String) (msg : String)
    (n : Option Nat) (ln : Option String) :
    parse cy text = .error (.parseError msg n ln) ↔
    firstFailAt cy none 1 ((pySplitlines (pyStrip text.toList)).map String.mk)
      msg n ln := by
  unfold parse
  exact parserGo_parseError_iff _ cy none 1 msg n ln
